import Mathlib


/-!
Verification of the SMF SphinxAI search client and result cache
(`SphinxAI/sphinx_integration.py`, `SphinxAI/utils/cache.py`,
`SphinxAI/core/constants.py`).
Python strings are modelled as `List Char`; Python dictionaries whose keys
are strings are modelled as association lists.  Each definition mirrors one
function of the source; the source file and function are named in its doc
comment.
-/
/-- Convert a Lean string literal to the `List Char` representation used
throughout the development. -/
def s2l (s : String) : List Char := s.data

/-- The backtick character (U+0060), written by code point. -/
def btickChar : Char := Char.ofNat 96

/-- The double-quote character (U+0022). -/
def dquoteChar : Char := Char.ofNat 34

/-- The single-quote character (U+0027). -/
def squoteChar : Char := Char.ofNat 39

/-- The backslash character (U+005C). -/
def bslashChar : Char := Char.ofNat 92

/-- ASCII whitespace recognised by Python's `str.strip()` / `str.split()`
(tab, line feed, vertical tab, form feed, carriage return, space). -/
def pyIsSpace (c : Char) : Bool :=
  c.toNat = 9 || c.toNat = 10 || c.toNat = 11 || c.toNat = 12 ||
  c.toNat = 13 || c.toNat = 32

/-- Lowercase mapping for the uppercase Polish diacritics, as performed by
Python's `str.lower()` on the characters occurring in this code base. -/
def polishLowerChar (c : Char) : Char :=
  if c = 'Ą' then 'ą' else if c = 'Ć' then 'ć' else if c = 'Ę' then 'ę'
  else if c = 'Ł' then 'ł' else if c = 'Ń' then 'ń' else if c = 'Ó' then 'ó'
  else if c = 'Ś' then 'ś' else if c = 'Ź' then 'ź' else if c = 'Ż' then 'ż'
  else c

/-- Python `str.lower()`, character-wise, restricted to ASCII letters and
the Polish diacritics (the alphabets this code base operates on). -/
def pyLowerChar (c : Char) : Char :=
  if 65 ≤ c.toNat ∧ c.toNat ≤ 90 then Char.ofNat (c.toNat + 32)
  else polishLowerChar c

/-- Python `str.lower()` over a whole string. -/
def pyLower (s : List Char) : List Char := s.map pyLowerChar

/-- Python `str.strip()` with no argument: drop leading and trailing
whitespace. -/
def pyStrip (s : List Char) : List Char :=
  ((s.dropWhile pyIsSpace).reverse.dropWhile pyIsSpace).reverse

/-- Python `str.split()` with no argument: split on runs of whitespace,
discarding empty tokens.  `acc` holds the characters of the token being
read, in reverse. -/
def splitWsAux : List Char → List Char → List (List Char)
  | [], acc => if acc.isEmpty then [] else [acc.reverse]
  | c :: cs, acc =>
    if pyIsSpace c then
      if acc.isEmpty then splitWsAux cs []
      else acc.reverse :: splitWsAux cs []
    else splitWsAux cs (c :: acc)

/-- Python `str.split()` with no argument. -/
def splitWs (s : List Char) : List (List Char) := splitWsAux s []

/-- Python `sep.join(xs)`. -/
def joinSep (sep : List Char) : List (List Char) → List Char
  | [] => []
  | [x] => x
  | x :: y :: xs => x ++ sep ++ joinSep sep (y :: xs)

/-- Python `str.replace(c, r)` where the needle `c` is a single character:
every occurrence of `c` is replaced by the string `r`. -/
def replaceChar (s : List Char) (c : Char) (r : List Char) : List Char :=
  s.flatMap (fun x => if x = c then r else [x])

/-- Does `s` start with `p`?  (Helper for substring search.) -/
def isPfxOf : List Char → List Char → Bool
  | [], _ => true
  | _ :: _, [] => false
  | p :: ps, c :: cs => p = c && isPfxOf ps cs

/-- Python's `needle in hay` for strings: does `needle` occur as a
contiguous substring of `hay`? -/
def containsSub (hay needle : List Char) : Bool :=
  match hay with
  | [] => needle.isEmpty
  | _ :: cs => isPfxOf needle hay || containsSub cs needle

/-! ## Constants (`SphinxAI/core/constants.py`) -/
/-- `POLISH_DIACRITICS_MAP` from `SphinxAI/core/constants.py`, in its
insertion (= iteration) order. -/
def POLISH_DIACRITICS_MAP : List (Char × Char) :=
  [('ą', 'a'), ('ć', 'c'), ('ę', 'e'), ('ł', 'l'), ('ń', 'n'), ('ó', 'o'),
   ('ś', 's'), ('ź', 'z'), ('ż', 'z'),
   ('Ą', 'A'), ('Ć', 'C'), ('Ę', 'E'), ('Ł', 'L'), ('Ń', 'N'), ('Ó', 'O'),
   ('Ś', 'S'), ('Ź', 'Z'), ('Ż', 'Z')]

/-- `POLISH_STOPWORDS` from `SphinxAI/core/constants.py` (a Python set;
only membership is ever used, so a list model is faithful). -/
def POLISH_STOPWORDS : List (List Char) :=
  [s2l "a", s2l "aby", s2l "ale", s2l "albo", s2l "am", s2l "an", s2l "ani",
   s2l "bardzo", s2l "bez", s2l "będzie", s2l "by", s2l "być", s2l "ci",
   s2l "co", s2l "czy", s2l "dla", s2l "do", s2l "gdy", s2l "go", s2l "i",
   s2l "ich", s2l "ile", s2l "im", s2l "ja", s2l "jak", s2l "jako", s2l "je",
   s2l "jego", s2l "jej", s2l "jeden", s2l "jednej", s2l "jedną", s2l "już",
   s2l "każdy", s2l "która", s2l "które", s2l "której", s2l "lub", s2l "ma",
   s2l "mają", s2l "może", s2l "my", s2l "na", s2l "nad", s2l "nasz",
   s2l "nasze", s2l "naszego", s2l "nie", s2l "niego", s2l "niej", s2l "nim",
   s2l "nimi", s2l "o", s2l "od", s2l "oraz", s2l "po", s2l "pod",
   s2l "przez", s2l "się", s2l "są", s2l "ta", s2l "tak", s2l "tam",
   s2l "te", s2l "tej", s2l "tem", s2l "temu", s2l "to", s2l "tu", s2l "ty",
   s2l "tym", s2l "w", s2l "we", s2l "właśnie", s2l "z", s2l "za", s2l "ze",
   s2l "że", s2l "żeby", s2l "tylko", s2l "także", s2l "więc", s2l "gdzie",
   s2l "kiedy", s2l "czyli", s2l "dlatego", s2l "jednak", s2l "między",
   s2l "przed", s2l "podczas", s2l "zatem"]

/-! ## Query normalization (`SphinxIntegrationPolish`) -/
/-- One `text.replace(polish_char, normalized_char)` step of
`_normalize_polish_diacritics`: both needle and replacement are single
characters, so the replace is a character-wise map. -/
def replaceOne (s : List Char) (c r : Char) : List Char :=
  s.map (fun x => if x = c then r else x)

/-- `SphinxIntegrationPolish._normalize_polish_diacritics`
(`sphinx_integration.py` lines 219-231): iterate over
`POLISH_DIACRITICS_MAP.items()` replacing each diacritic. -/
def normalizePolishDiacritics (text : List Char) : List Char :=
  POLISH_DIACRITICS_MAP.foldl (fun t p => replaceOne t p.1 p.2) text

/-- The stopword filtering step of `preprocess_polish_query`: lower-case,
split on whitespace, drop Polish stopwords. -/
def filteredWords (query : List Char) : List (List Char) :=
  (splitWs (pyLower query)).filter (fun w => !(POLISH_STOPWORDS.contains w))

/-- `SphinxIntegrationPolish.preprocess_polish_query`
(`sphinx_integration.py` lines 180-217). -/
def preprocessPolishQuery (query : List Char) : List Char :=
  if query.isEmpty then []
  else
    let filtered := filteredWords query
    if filtered.isEmpty then query
    else
      let processed := joinSep (s2l " ") filtered
      let normalized := normalizePolishDiacritics processed
      let variations :=
        if normalized ≠ processed then [processed, normalized]
        else [processed]
      joinSep (s2l " | ") variations

/-- The `normalized` field of the spec's `SearchQuery`: the stopword-filtered
lower-cased form, falling back to the raw query when filtering empties it.
This is the value `processed_query` holds when `preprocess_polish_query`
reaches its variation-building step, and the raw query on the fallback
path. -/
def normalizedQuery (query : List Char) : List Char :=
  if query.isEmpty then []
  else if (filteredWords query).isEmpty then query
  else joinSep (s2l " ") (filteredWords query)

/-! ## Identifier and query validation (`SphinxIntegrationPolish`) -/
/-- `SphinxIntegrationPolish._escape_identifier`
(`sphinx_integration.py` lines 669-681): remove backticks, double quotes
and single quotes, then wrap in backticks.  `str.replace(c, "")` deletes
every occurrence, i.e. filters the character out. -/
def escapeIdentifier (identifier : List Char) : List Char :=
  let escaped :=
    replaceChar (replaceChar (replaceChar identifier btickChar [])
      dquoteChar []) squoteChar []
  [btickChar] ++ escaped ++ [btickChar]

/-- An ASCII letter, as matched by `[a-zA-Z]` in the validation regexes. -/
def isAsciiLetter (c : Char) : Bool :=
  (65 ≤ c.toNat && c.toNat ≤ 90) || (97 ≤ c.toNat && c.toNat ≤ 122)

/-- An ASCII digit. -/
def isAsciiDigit (c : Char) : Bool := 48 ≤ c.toNat && c.toNat ≤ 57

/-- `re.match(r"^[a-zA-Z_][a-zA-Z0-9_]*$", field_name)` of
`_validate_field_name`. -/
def fieldNameRegexOk (s : List Char) : Bool :=
  match s with
  | [] => false
  | c :: cs =>
    (isAsciiLetter c || c = '_') &&
    cs.all (fun x => isAsciiLetter x || isAsciiDigit x || x = '_')

/-- The `allowed_fields` whitelist of `_validate_field_name`
(`sphinx_integration.py` lines 700-715). -/
def allowedFields : List (List Char) :=
  [s2l "id", s2l "topic_id", s2l "post_id", s2l "board_id", s2l "weight",
   s2l "content", s2l "body", s2l "message", s2l "subject", s2l "title",
   s2l "topic_title", s2l "poster_time", s2l "poster_name", s2l "board_name"]

/-- `SphinxIntegrationPolish._validate_field_name`
(`sphinx_integration.py` lines 683-716). -/
def validateFieldName (fieldName : List Char) : Bool :=
  if !(fieldNameRegexOk fieldName) then false
  else allowedFields.contains fieldName

/-- `re.match(r"^[a-zA-Z0-9_\.]+$", index_name)` of
`_validate_index_name`. -/
def indexNameRegexOk (s : List Char) : Bool :=
  !s.isEmpty &&
  s.all (fun x => isAsciiLetter x || isAsciiDigit x || x = '_' || x = '.')

/-- The `allowed_indexes` whitelist of `_validate_index_name`
(`sphinx_integration.py` lines 659-666). -/
def allowedIndexes : List (List Char) :=
  [s2l "sphinx_main", s2l "sphinx_delta", s2l "forum_posts", s2l "smf_posts",
   s2l "main", s2l "delta"]

/-- `SphinxIntegrationPolish._validate_index_name`
(`sphinx_integration.py` lines 642-667). -/
def validateIndexName (indexName : List Char) : Bool :=
  if !(indexNameRegexOk indexName) then false
  else allowedIndexes.contains indexName || isPfxOf (s2l "sphinx_") indexName

/-- The `dangerous_patterns` list of `_validate_search_query`
(`sphinx_integration.py` lines 732-746). -/
def dangerousPatterns : List (List Char) :=
  [[Char.ofNat 59], s2l "--", s2l "/*", s2l "*/", s2l "union", s2l "select",
   s2l "insert", s2l "update", s2l "delete", s2l "drop", s2l "create",
   s2l "alter", s2l "exec"]

/-- `SphinxIntegrationPolish._validate_search_query`
(`sphinx_integration.py` lines 718-760): reject an empty or
whitespace-only query, any query containing a dangerous pattern
(checked against the lower-cased query), and any query longer than
1000 characters. -/
def validateSearchQuery (query : List Char) : Bool :=
  if query.isEmpty || (pyStrip query).isEmpty then false
  else if dangerousPatterns.any (fun p => containsSub (pyLower query) p) then
    false
  else if query.length > 1000 then false
  else true

/-! ## Statement building (`SphinxIntegrationPolish._sphinx_search`) -/
/-- The content-field aliases checked when projecting content in
`_sphinx_search` (lines 334, 398).  Note this list has no `"text"` entry,
unlike the detection list of `_detect_index_fields`. -/
def contentSelAliases : List (List Char) :=
  [s2l "content", s2l "body", s2l "message"]

/-- The subject-field aliases checked in `_sphinx_search`
(lines 339, 403). -/
def subjectSelAliases : List (List Char) :=
  [s2l "subject", s2l "title", s2l "topic_title"]

/-- The `base_fields` list of `_sphinx_search` (line 321). -/
def baseFields : List (List Char) := [s2l "id", s2l "WEIGHT() as weight"]

/-- The `optional_fields` list built in `_sphinx_search` (lines 322-342):
id-attribute fields that are present in `available_fields`, then - when
content is in the index - the first content alias and the first subject
alias found in `available_fields`. -/
def optionalFields (availableFields : List (List Char))
    (contentInIndex : Bool) : List (List Char) :=
  (if availableFields.contains (s2l "topic_id") then [s2l "topic_id"] else [])
  ++ (if availableFields.contains (s2l "post_id") then [s2l "post_id"] else [])
  ++ (if availableFields.contains (s2l "board_id") then [s2l "board_id"]
      else [])
  ++ (if contentInIndex then
        (contentSelAliases.find? (fun f => availableFields.contains f)).toList
        ++ (subjectSelAliases.find?
              (fun f => availableFields.contains f)).toList
      else [])

/-- The validated (pre-escaping) projected field names of `_sphinx_search`
(lines 344-352): `all_fields` filtered by `_validate_field_name`. -/
def projectedNames (availableFields : List (List Char))
    (contentInIndex : Bool) : List (List Char) :=
  (baseFields ++ optionalFields availableFields contentInIndex).filter
    validateFieldName

/-- The `safe_fields` list of `_sphinx_search` (lines 347-355): the
validated field names, escaped; if none survived validation, the literal
fallback list is substituted. -/
def safeFields (availableFields : List (List Char))
    (contentInIndex : Bool) : List (List Char) :=
  let safe := (projectedNames availableFields contentInIndex).map
    escapeIdentifier
  if safe.isEmpty then
    [s2l "id", s2l "topic_id", s2l "post_id", s2l "board_id"]
  else safe

/-- The query escaping of `_sphinx_search` line 318:
`query.replace("'", "\\'").replace('"', '\\"')`. -/
def escapeQueryQuotes (query : List Char) : List Char :=
  replaceChar (replaceChar query squoteChar [bslashChar, squoteChar])
    dquoteChar [bslashChar, dquoteChar]

/-- The SQL-like statement assembled by `_sphinx_search`, with the match
text and the limit carried as bound parameters (line 375). -/
structure Statement where
  fieldsStr : List Char
  escapedIndex : List Char
  matchParam : List Char
  limitParam : Nat
  deriving Repr, DecidableEq

/-- The statement-building portion of `SphinxIntegrationPolish._sphinx_search`
(`sphinx_integration.py` lines 316-375): escape the query, build and
validate the projection, validate the escaped query, and either fail with
the `ValueError("Invalid search query format")` (never reaching
`cursor.execute`) or produce the statement whose parameters are then
executed. -/
def sphinxSearchStatement (availableFields : List (List Char))
    (contentInIndex : Bool) (indexName query : List Char) (limit : Nat) :
    Except (List Char) Statement :=
  let escapedQuery := escapeQueryQuotes query
  let fieldsStr := joinSep (s2l ", ") (safeFields availableFields
    contentInIndex)
  let escapedIndex := escapeIdentifier indexName
  if !(validateSearchQuery escapedQuery) then
    .error (s2l "Invalid search query format")
  else
    .ok ⟨fieldsStr, escapedIndex, escapedQuery, limit⟩

/-! ## Schema detection (`SphinxIntegrationPolish._detect_index_fields`) -/
/-- A JSON-like value: the shape of data held in result rows and in the
cache (Python dict/list/str/num values decoded from JSON). -/
inductive JVal where
  | jnull : JVal
  | jbool : Bool → JVal
  | jnum : Int → JVal
  | jstr : List Char → JVal
  | jarr : List JVal → JVal
  | jobj : List (List Char × JVal) → JVal

/-- A row returned by the wire protocol's dict cursor: an association
list from column name to value. -/
def Row : Type := List (List Char × JVal)

/-- `row.get(key)` / `key in row` lookup on a dict row. -/
def dictGet (row : Row) (key : List Char) : Option JVal :=
  (row.find? (fun p => p.1 = key)).map (fun p => p.2)

/-- Python `key in row`. -/
def dictHas (row : Row) (key : List Char) : Bool :=
  (dictGet row key).isSome

/-- The fixed minimal field set used by every degraded path of
`_detect_index_fields` (lines 96, 104, 133, 142, 177). -/
def minimalFields : List (List Char) :=
  [s2l "id", s2l "topic_id", s2l "post_id", s2l "board_id"]

/-- The `content_fields` detection aliases of `_detect_index_fields`
(line 151); note the extra `"text"` compared with `contentSelAliases`. -/
def contentDetectAliases : List (List Char) :=
  [s2l "content", s2l "body", s2l "message", s2l "text"]

/-- Outcome of the tier-1 `DESCRIBE` probe: the statement raised, or it
returned a list of rows (from which the `"Field"` column is read; a row
missing that column raises a `KeyError`, handled by the same fallback). -/
inductive Tier1Outcome where
  | raised : Tier1Outcome
  | rows : List Row → Tier1Outcome

/-- Outcome of the tier-2 `SELECT * ... LIMIT 1` probe: the statement
raised, returned no row, or returned one row. -/
inductive Tier2Outcome where
  | raised : Tier2Outcome
  | noRow : Tier2Outcome
  | row : Row → Tier2Outcome

/-- Outcome of `_get_connection` plus the two probe tiers. -/
inductive ProbeOutcome where
  | noConnection : ProbeOutcome
  | connected : Tier1Outcome → Tier2Outcome → ProbeOutcome

/-- The schema state left by `_detect_index_fields`: the
`available_fields` / `content_in_index` attributes of the client. -/
structure IndexSchema where
  availableFields : List (List Char)
  contentInIndex : Bool
  deriving Repr, DecidableEq

/-- `[field["Field"] for field in fields_info]` of tier 1: `none` models
the `KeyError` raised when a row lacks the `"Field"` column (caught by the
inner `except`, falling through to tier 2). -/
def extractFieldColumn (rows : List Row) : Option (List (List Char)) :=
  rows.mapM (fun r =>
    match dictGet r (s2l "Field") with
    | some (JVal.jstr s) => some s
    | _ => none)

/-- Tier 2 of `_detect_index_fields` (lines 120-148): field names from a
sample row's keys, or the minimal set when the query raised or the index
is empty. -/
def tier2Fields : Tier2Outcome → List (List Char)
  | .raised => minimalFields
  | .noRow => minimalFields
  | .row r => r.map (fun p => p.1)

/-- `SphinxIntegrationPolish._detect_index_fields`
(`sphinx_integration.py` lines 86-178).  Every exception path of the
source is caught, so the model is a total function: no outcome raises to
the caller.  The `content_in_index` flag is computed from the detected
fields via the detection alias list (lines 150-156). -/
def detectIndexFields (indexName : List Char) (outcome : ProbeOutcome) :
    IndexSchema :=
  match outcome with
  | .noConnection => ⟨minimalFields, false⟩
  | .connected t1 t2 =>
    if !(validateIndexName indexName) then ⟨minimalFields, false⟩
    else
      let fields :=
        match t1 with
        | .rows rs =>
          match extractFieldColumn rs with
          | some fs => fs
          | none => tier2Fields t2
        | .raised => tier2Fields t2
      ⟨fields, contentDetectAliases.any (fun f => fields.contains f)⟩

/-! ## Result construction (`_sphinx_search` lines 379-408) -/
/-- The standard-format search result dict built per row by
`_sphinx_search` (lines 381-406).  `content` / `subject` are `none` when
the corresponding key was never set. -/
structure SearchResult where
  id : Option JVal
  topicId : Option JVal
  postId : Option JVal
  boardId : Option JVal
  weight : JVal
  contentInIndex : Bool
  needsContentFetch : Bool
  content : Option JVal
  subject : Option JVal

/-- The per-row result construction of `_sphinx_search`
(lines 380-408): identifiers via `row.get`, `weight` defaulting to `0`,
the schema flags copied from the client state, and - only when content is
in the index - `content` / `subject` set from the first alias key present
in the row. -/
def rowToResult (contentInIndex : Bool) (row : Row) : SearchResult :=
  { id := dictGet row (s2l "id")
    topicId := dictGet row (s2l "topic_id")
    postId := dictGet row (s2l "post_id")
    boardId := dictGet row (s2l "board_id")
    weight := (dictGet row (s2l "weight")).getD (JVal.jnum 0)
    contentInIndex := contentInIndex
    needsContentFetch := !contentInIndex
    content :=
      if contentInIndex then
        (contentSelAliases.find? (fun f => dictHas row f)).bind
          (fun f => dictGet row f)
      else none
    subject :=
      if contentInIndex then
        (subjectSelAliases.find? (fun f => dictHas row f)).bind
          (fun f => dictGet row f)
      else none }

/-! ## JSON serialization (`json.dumps`, used for cache keys) -/
/-- Lower-case hexadecimal digit. -/
def hexDigit (n : Nat) : Char :=
  if n < 10 then Char.ofNat (48 + n) else Char.ofNat (87 + n)

/-- Four-digit hexadecimal rendering of a code point below 0x10000. -/
def hex4 (n : Nat) : List Char :=
  [hexDigit (n / 4096 % 16), hexDigit (n / 256 % 16), hexDigit (n / 16 % 16),
   hexDigit (n % 16)]

/-- A `\uXXXX` escape. -/
def uEscape (n : Nat) : List Char := [bslashChar, 'u'] ++ hex4 n

/-- Python `json.dumps` escaping of one character with the default
`ensure_ascii=True` (as used for cache-key payloads): quote and backslash
are backslash-escaped, the short control escapes are used for
\b \t \n \f \r, other control characters and all non-ASCII characters
become `\uXXXX` (a surrogate pair above the BMP). -/
def jsonEscCharAscii (c : Char) : List Char :=
  if c = dquoteChar then [bslashChar, dquoteChar]
  else if c = bslashChar then [bslashChar, bslashChar]
  else if c.toNat = 8 then [bslashChar, 'b']
  else if c.toNat = 9 then [bslashChar, 't']
  else if c.toNat = 10 then [bslashChar, 'n']
  else if c.toNat = 12 then [bslashChar, 'f']
  else if c.toNat = 13 then [bslashChar, 'r']
  else if c.toNat < 32 then uEscape c.toNat
  else if c.toNat < 127 then [c]
  else if c.toNat < 65536 then uEscape c.toNat
  else
    uEscape (55296 + (c.toNat - 65536) / 1024) ++
    uEscape (56320 + (c.toNat - 65536) % 1024)

/-- `json.dumps` rendering of a string literal (`ensure_ascii=True`). -/
def jsonStr (s : List Char) : List Char :=
  [dquoteChar] ++ s.flatMap jsonEscCharAscii ++ [dquoteChar]

/-- Decimal rendering of an integer, as `json.dumps` prints numbers. -/
def intDecimal (n : Int) : List Char :=
  if n < 0 then '-' :: (Nat.toDigits 10 n.natAbs)
  else Nat.toDigits 10 n.natAbs

/-- Lexicographic (code-point) string order, as Python's `sorted` compares
`str` keys for `sort_keys=True`. -/
def lexLe : List Char → List Char → Bool
  | [], _ => true
  | _ :: _, [] => false
  | c :: cs, d :: ds =>
    if c.toNat < d.toNat then true
    else if d.toNat < c.toNat then false
    else lexLe cs ds

/-- Insert into a key-sorted list of serialized object members (stable,
ascending by key). -/
def insertByKey (kv : List Char × List Char) :
    List (List Char × List Char) → List (List Char × List Char)
  | [] => [kv]
  | p :: ps =>
    if lexLe p.1 kv.1 then p :: insertByKey kv ps else kv :: p :: ps

/-- Stable ascending sort by key: the order `json.dumps(_, sort_keys=True)`
emits object members in.  (Sorting the members after serializing their
values equals Python's sort-then-serialize, because the sort compares keys
only and is stable.) -/
def sortByKey (kvs : List (List Char × List Char)) :
    List (List Char × List Char) :=
  kvs.foldr insertByKey []

/-- Join serialized object members as `"key": value` separated by `", "`. -/
def joinObjMembers : List (List Char × List Char) → List Char
  | [] => []
  | [kv] => jsonStr kv.1 ++ s2l ": " ++ kv.2
  | kv :: kv2 :: kvs =>
    jsonStr kv.1 ++ s2l ": " ++ kv.2 ++ s2l ", " ++
    joinObjMembers (kv2 :: kvs)

mutual
/-- `json.dumps(v, sort_keys=True)` with the default separators
(`", "` / `": "`) and `ensure_ascii=True`, as used to build cache-key
payloads in `SphinxAI/utils/cache.py`. -/
def dumpsJson : JVal → List Char
  | .jnull => s2l "null"
  | .jbool true => s2l "true"
  | .jbool false => s2l "false"
  | .jnum n => intDecimal n
  | .jstr s => jsonStr s
  | .jarr xs => [Char.ofNat 91] ++ dumpsJsonList xs ++ [Char.ofNat 93]
  | .jobj kvs =>
    [Char.ofNat 123] ++ joinObjMembers (sortByKey (dumpsJsonMembers kvs)) ++
    [Char.ofNat 125]
/-- Comma-joined array members. -/
def dumpsJsonList : List JVal → List Char
  | [] => []
  | [x] => dumpsJson x
  | x :: y :: xs => dumpsJson x ++ s2l ", " ++ dumpsJsonList (y :: xs)
/-- Object members with serialized values (keys untouched). -/
def dumpsJsonMembers : List (List Char × JVal) → List (List Char × List Char)
  | [] => []
  | kv :: kvs => (kv.1, dumpsJson kv.2) :: dumpsJsonMembers kvs
end

/-! ## Result cache (`SphinxAI/utils/cache.py`, `SphinxAICache`) -/
/-- The environment settings read by `_get_search_version` (lines 532-545):
`SPHINX_AI_MODEL_PATH`, `SPHINX_AI_MODEL_TYPE`, `SPHINX_AI_MAX_RESULTS`,
after applying `os.environ.get` defaults. -/
structure EnvSettings where
  modelPath : List Char
  modelType : List Char
  maxResults : List Char

/-- The `version_data` dict of `_get_search_version`. -/
def versionData (env : EnvSettings) : JVal :=
  .jobj [(s2l "model_path", .jstr env.modelPath),
         (s2l "model_type", .jstr env.modelType),
         (s2l "max_results", .jstr env.maxResults)]

/-- `SphinxAICache._get_search_version` (`cache.py` lines 532-545):
the hex digest of the canonically serialized environment settings.
`hashlib.md5` is external to the repository and is taken as the parameter
`md5`. -/
def getSearchVersion (md5 : List Char → List Char) (env : EnvSettings) :
    List Char :=
  md5 (dumpsJson (versionData env))

/-- A value held by the key-value cache backend.  The backend stores
strings; a `jsonVal` models a stored JSON document (serialization with
`json.dumps(_, ensure_ascii=False)` and `json.loads` is a bijection on
JSON trees, so the store is modelled at the decoded level), and an
`intVal` models a stored decimal integer (the representation `INCR`
operates on). -/
inductive RVal where
  | jsonVal : JVal → RVal
  | intVal : Nat → RVal

/-- Backend `GET`. -/
def kvGet (kv : List (List Char × RVal)) (k : List Char) : Option RVal :=
  (kv.find? (fun p => p.1 = k)).map (fun p => p.2)

/-- Backend `SETEX` (ignoring the expiry, which the backend enforces with
wall-clock time outside this model). -/
def kvSet (kv : List (List Char × RVal)) (k : List Char) (v : RVal) :
    List (List Char × RVal) :=
  (k, v) :: kv.filter (fun p => p.1 ≠ k)

/-- Backend `INCR`: missing key counts from 0; a key holding a non-integer
raises, which every statistics caller swallows, leaving the store
unchanged. -/
def incrKv (kv : List (List Char × RVal)) (k : List Char) :
    List (List Char × RVal) :=
  match kvGet kv k with
  | some (.intVal n) => kvSet kv k (.intVal (n + 1))
  | none => kvSet kv k (.intVal 1)
  | some (.jsonVal _) => kv

/-- The state of a `SphinxAICache` instance together with its backend:
the store contents, the `cache_enabled` / `is_connected` flags (a live
`redis_client` is folded into `isConnected`), the configured key
namespace (`config['prefix']`), the process environment, and the default
TTL. -/
structure CacheState where
  kv : List (List Char × RVal)
  cacheEnabled : Bool
  isConnected : Bool
  keyNamespace : List Char
  env : EnvSettings
  defaultTtl : Nat

/-- `SphinxAICache.is_available` (`cache.py` lines 155-159). -/
def isAvailable (st : CacheState) : Bool :=
  st.cacheEnabled && st.isConnected

/-- The full key of the cache-hit counter used by `record_cache_hit`. -/
def hitsKey (st : CacheState) : List Char :=
  st.keyNamespace ++ s2l "stats:cache_hits"

/-- `SphinxAICache.KEY_PREFIXES` (`cache.py` lines 44-51). -/
def KEY_PREFIXES : List (List Char × List Char) :=
  [(s2l "search", s2l "search:"), (s2l "model", s2l "model:"),
   (s2l "config", s2l "config:"), (s2l "stats", s2l "stats:"),
   (s2l "suggestions", s2l "suggestions:"),
   (s2l "embeddings", s2l "embeddings:")]

/-- `SphinxAICache._get_cache_key` (`cache.py` lines 161-174): namespace,
category tag, then the hex digest of the payload.  `hashlib.sha256` is
external to the repository and is taken as the parameter `sha`. -/
def getCacheKey (sha : List Char → List Char)
    (nsp cacheType key : List Char) : List Char :=
  let tag := ((KEY_PREFIXES.find? (fun p => p.1 = cacheType)).map
    (fun p => p.2)).getD []
  nsp ++ tag ++ sha key

/-- The `key_data` dict shared by `cache_search_results` (lines 198-202)
and `get_cached_search_results` (lines 239-243). -/
def searchKeyData (query : List Char) (filters : JVal)
    (version : List Char) : JVal :=
  .jobj [(s2l "query", .jstr query), (s2l "filters", filters),
         (s2l "version", .jstr version)]

/-- The full cache key both search-cache operations derive:
`_get_cache_key("search", json.dumps(key_data, sort_keys=True))`. -/
def searchCacheKey (sha md5 : List Char → List Char) (nsp : List Char)
    (env : EnvSettings) (query : List Char) (filters : JVal) : List Char :=
  getCacheKey sha nsp (s2l "search")
    (dumpsJson (searchKeyData query filters (getSearchVersion md5 env)))

/-- `SphinxAICache.record_cache_hit` (`cache.py` lines 483-489). -/
def recordCacheHit (st : CacheState) : CacheState :=
  if isAvailable st then { st with kv := incrKv st.kv (hitsKey st) } else st

/-- `SphinxAICache.record_cache_miss` (`cache.py` lines 491-497). -/
def recordCacheMiss (st : CacheState) : CacheState :=
  if isAvailable st then
    { st with kv := incrKv st.kv (st.keyNamespace ++ s2l "stats:cache_misses") }
  else st

/-- The `data` dict stored by `cache_search_results` (`cache.py`
lines 206-212). -/
def searchCacheEntry (query : List Char) (filters : JVal)
    (results : List JVal) (now : Int) : JVal :=
  .jobj [(s2l "query", .jstr query), (s2l "filters", filters),
         (s2l "results", .jarr results), (s2l "timestamp", .jnum now),
         (s2l "count", .jnum results.length)]

/-- `SphinxAICache.cache_search_results` (`cache.py` lines 176-221).
`now` is the value `time.time()` returns (timestamps are irrelevant to
the verified properties and are modelled as integers). -/
def cacheSearchResults (sha md5 : List Char → List Char) (st : CacheState)
    (query : List Char) (filters : JVal) (results : List JVal)
    (ttl : Option Nat) (now : Int) : Bool × CacheState :=
  if !(isAvailable st) then (false, st)
  else
    let cacheKey := searchCacheKey sha md5 st.keyNamespace st.env query
      filters
    let data : JVal := searchCacheEntry query filters results now
    let _ttl := ttl.getD st.defaultTtl
    (true, { st with kv := kvSet st.kv cacheKey (.jsonVal data) })

/-- `SphinxAICache.get_cached_search_results` (`cache.py` lines 223-259):
recompute the key, then on a backend miss record a miss and return
nothing; on a hit decode, record a hit and return the entry.  A stored
integer decodes to a JSON number. -/
def getCachedSearchResults (sha md5 : List Char → List Char)
    (st : CacheState) (query : List Char) (filters : JVal) :
    Option JVal × CacheState :=
  if !(isAvailable st) then (none, st)
  else
    let cacheKey := searchCacheKey sha md5 st.keyNamespace st.env query
      filters
    match kvGet st.kv cacheKey with
    | none => (none, recordCacheMiss st)
    | some (.jsonVal d) => (some d, recordCacheHit st)
    | some (.intVal n) => (some (.jnum n), recordCacheHit st)

/-- The observed value of the hits counter. -/
def hitsCount (st : CacheState) : Nat :=
  match kvGet st.kv (hitsKey st) with
  | some (.intVal n) => n
  | _ => 0

/-- Field lookup on a decoded JSON object. -/
def objGet : JVal → List Char → Option JVal
  | .jobj kvs, k => (kvs.find? (fun p => p.1 = k)).map (fun p => p.2)
  | _, _ => none

/-- Is the hits-counter key free or holding an integer (the only states
the statistics code itself ever produces)? -/
def hitsKeyIsCounter (st : CacheState) : Bool :=
  match kvGet st.kv (hitsKey st) with
  | some (.jsonVal _) => false
  | _ => true

/-! ## C9: idempotence of diacritic folding -/
/-- The per-character action of the sequence of `replace` calls in
`_normalize_polish_diacritics`. -/
def applySubs (l : List (Char × Char)) (ch : Char) : Char :=
  l.foldl (fun c p => if c = p.1 then p.2 else c) ch

/-! ## C2: dangerous queries are rejected before execution -/
/-- The per-character action of the two quote-escaping `replace` calls of
`_sphinx_search` line 318. -/
def escQChar (x : Char) : List Char :=
  if x = squoteChar then [bslashChar, squoteChar]
  else if x = dquoteChar then [bslashChar, dquoteChar]
  else [x]

/-! ## C5: the probe always degrades to a usable schema -/
/-- Tier 1 yields no field list: the `DESCRIBE` raised, or a returned row
lacked the `"Field"` column (a `KeyError` handled by the same inner
`except`). -/
def tier1Failed : Tier1Outcome → Prop
  | .raised => True
  | .rows rs => extractFieldColumn rs = none

/-- Tier 2 yields no field list: the sample query raised or the index was
empty. -/
def tier2Failed : Tier2Outcome → Prop
  | .raised => True
  | .noRow => True
  | .row _ => False

/-! ## C3: cache keys embed the schema version -/
/-- The left brace character (U+007B). -/
def lbraceChar : Char := Char.ofNat 123

/-- The right brace character (U+007D). -/
def rbraceChar : Char := Char.ofNat 125

/-- A character that `json.dumps` renders as itself: printable ASCII,
neither quote nor backslash.  MD5/SHA hex digests consist solely of such
characters. -/
def jsonPlainChar (c : Char) : Bool :=
  !(c = dquoteChar) && !(c = bslashChar) &&
    decide (32 ≤ c.toNat) && decide (c.toNat < 127)

/-- Concrete hash stand-in for the C3 witness: the identity function
(trivially injective). -/
def shaW : List Char → List Char := fun s => s

/-- Concrete digest stand-in for the C3 witness: keep only ASCII letters,
so every output character is plain. -/
def md5W : List Char → List Char :=
  fun s => s.filter (fun c => isAsciiLetter c)

/-- Concrete environment for the C3 witness. -/
def envW1 : EnvSettings := ⟨s2l "a", s2l "t", s2l "50"⟩

/-- Concrete changed environment for the C3 witness. -/
def envW2 : EnvSettings := ⟨s2l "b", s2l "t", s2l "50"⟩

/-- Concrete cache state for the C3 witness. -/
def stW : CacheState := ⟨[], true, true, s2l "smf_", envW1, 3600⟩

/-! ## C4: store/lookup round trip and the hits counter -/
/-- The integer counter stored at a key (0 if absent). -/
def countAt (kv : List (List Char × RVal)) (k : List Char) : Nat :=
  match kvGet kv k with
  | some (.intVal n) => n
  | _ => 0

/-! ## Theorems -/

theorem isPfxOf_iff (p s : List Char) :
    isPfxOf p s = true ↔ ∃ t, s = p ++ t := by
  induction p generalizing s with
  | nil => simp [isPfxOf]
  | cons c cs ih =>
    cases s with
    | nil => simp [isPfxOf]
    | cons d ds =>
      simp only [isPfxOf, Bool.and_eq_true, decide_eq_true_eq, ih]
      constructor
      · rintro ⟨rfl, t, rfl⟩; exact ⟨t, rfl⟩
      · rintro ⟨t, h⟩
        injection h with h1 h2
        exact ⟨h1.symm, t, h2⟩

theorem containsSub_iff (hay needle : List Char) :
    containsSub hay needle = true ↔ ∃ a b, hay = a ++ needle ++ b := by
  induction hay with
  | nil =>
    simp only [containsSub, List.isEmpty_iff]
    constructor
    · rintro rfl; exact ⟨[], [], rfl⟩
    · rintro ⟨a, b, h⟩
      rcases List.append_eq_nil.mp (List.append_eq_nil.mp h.symm).1 with ⟨_, h2⟩
      exact h2
  | cons c cs ih =>
    simp only [containsSub, Bool.or_eq_true, isPfxOf_iff, ih]
    constructor
    · rintro (⟨t, h⟩ | ⟨a, b, h⟩)
      · exact ⟨[], t, by simp [h]⟩
      · exact ⟨c :: a, b, by simp [h]⟩
    · rintro ⟨a, b, h⟩
      cases a with
      | nil => exact Or.inl ⟨b, by simpa using h⟩
      | cons x xs =>
        injection h with h1 h2
        exact Or.inr ⟨xs, b, h2⟩

theorem containsSub_of_parts (a needle b : List Char) :
    containsSub (a ++ needle ++ b) needle = true :=
  (containsSub_iff _ _).mpr ⟨a, b, rfl⟩

theorem containsSub_self (s : List Char) : containsSub s s = true := by
  simpa using containsSub_of_parts [] s []

/-! ## General lemmas about the string model -/
theorem mem_replaceChar_nil {s : List Char} {c x : Char}
    (h : x ∈ replaceChar s c []) : x ∈ s ∧ x ≠ c := by
  simp only [replaceChar, List.mem_flatMap] at h
  obtain ⟨y, hy, hx⟩ := h
  by_cases hyc : y = c
  · simp [hyc] at hx
  · simp [hyc] at hx
    subst hx
    exact ⟨hy, hyc⟩

theorem flatMap_id_of {s : List Char} {f : Char → List Char}
    (h : ∀ x ∈ s, f x = [x]) : s.flatMap f = s := by
  induction s with
  | nil => rfl
  | cons c cs ih =>
    simp only [List.flatMap_cons, h c (by simp)]
    rw [ih (fun x hx => h x (by simp [hx]))]
    rfl

theorem length_le_flatMap {s : List Char} {f : Char → List Char}
    (h : ∀ x, 1 ≤ (f x).length) : s.length ≤ (s.flatMap f).length := by
  induction s with
  | nil => simp
  | cons c cs ih =>
    simp only [List.flatMap_cons, List.length_append, List.length_cons]
    have := h c
    omega

/-- C10: for every input string, `_escape_identifier` returns a string
that starts and ends with a backtick and whose interior contains no
backtick, double-quote, or single-quote character, so a quoted identifier
placed into statement text can never close its own quoting. -/
theorem c10_escape_identifier_quoting (s : List Char) :
    ∃ mid, escapeIdentifier s = btickChar :: (mid ++ [btickChar]) ∧
      ∀ c ∈ mid, c ≠ btickChar ∧ c ≠ dquoteChar ∧ c ≠ squoteChar := by
  refine ⟨replaceChar (replaceChar (replaceChar s btickChar [])
    dquoteChar []) squoteChar [], rfl, ?_⟩
  intro c hc
  obtain ⟨hc2, hsq⟩ := mem_replaceChar_nil hc
  obtain ⟨hc3, hdq⟩ := mem_replaceChar_nil hc2
  obtain ⟨_, hbt⟩ := mem_replaceChar_nil hc3
  exact ⟨hbt, hdq, hsq⟩

theorem foldl_replaceOne_eq_map (l : List (Char × Char)) (s : List Char) :
    l.foldl (fun t p => replaceOne t p.1 p.2) s = s.map (applySubs l) := by
  induction l generalizing s with
  | nil =>
    simp only [List.foldl_nil, applySubs]
    exact (List.map_id' s).symm
  | cons p ps ih =>
    simp only [List.foldl_cons]
    rw [ih, replaceOne, List.map_map]
    rfl

theorem applySubs_not_key {l : List (Char × Char)} {ch : Char}
    (h : ch ∉ l.map Prod.fst) : applySubs l ch = ch := by
  induction l with
  | nil => rfl
  | cons p ps ih =>
    simp only [List.map_cons, List.mem_cons] at h
    push_neg at h
    simp only [applySubs, List.foldl_cons, if_neg h.1]
    exact ih h.2

set_option maxRecDepth 4000 in
theorem applySubs_polish_idem (ch : Char) :
    applySubs POLISH_DIACRITICS_MAP (applySubs POLISH_DIACRITICS_MAP ch) =
      applySubs POLISH_DIACRITICS_MAP ch := by
  by_cases h : ch ∈ POLISH_DIACRITICS_MAP.map Prod.fst
  · simp only [POLISH_DIACRITICS_MAP, List.map_cons, List.map_nil,
      List.mem_cons, List.not_mem_nil, or_false] at h
    rcases h with rfl | rfl | rfl | rfl | rfl | rfl | rfl | rfl | rfl |
      rfl | rfl | rfl | rfl | rfl | rfl | rfl | rfl | rfl <;> decide
  · rw [applySubs_not_key h, applySubs_not_key h]

theorem normalize_eq_map (s : List Char) :
    normalizePolishDiacritics s = s.map (applySubs POLISH_DIACRITICS_MAP) :=
  foldl_replaceOne_eq_map _ _

/-- C9: diacritic folding is idempotent, because every replacement target
in the fixed Polish diacritics map is an unaccented character that is not
itself a key of the map. -/
theorem c9_diacritics_idempotent (s : List Char) :
    normalizePolishDiacritics (normalizePolishDiacritics s) =
      normalizePolishDiacritics s := by
  rw [normalize_eq_map (normalizePolishDiacritics s), normalize_eq_map s,
    List.map_map]
  refine List.map_congr_left ?_
  intro ch _
  rw [Function.comp_apply]
  exact applySubs_polish_idem ch

/-! ## C7: normalization of non-empty queries -/
theorem splitWsAux_ne_nil (s : List Char) :
    ∀ (acc : List Char), ∀ t ∈ splitWsAux s acc, t ≠ [] := by
  induction s with
  | nil =>
    intro acc t ht
    simp only [splitWsAux] at ht
    by_cases ha : acc.isEmpty
    · simp [ha] at ht
    · rw [if_neg ha] at ht
      simp only [List.mem_singleton] at ht
      subst ht
      simp only [ne_eq, List.reverse_eq_nil_iff]
      intro h
      rw [h] at ha
      exact ha rfl
  | cons c cs ih =>
    intro acc t ht
    simp only [splitWsAux] at ht
    by_cases hc : pyIsSpace c
    · rw [if_pos hc] at ht
      by_cases ha : acc.isEmpty
      · rw [if_pos ha] at ht
        exact ih [] t ht
      · rw [if_neg ha] at ht
        rcases List.mem_cons.mp ht with h | h
        · subst h
          simp only [ne_eq, List.reverse_eq_nil_iff]
          intro h2
          rw [h2] at ha
          exact ha rfl
        · exact ih [] t h
    · rw [if_neg hc] at ht
      exact ih (c :: acc) t ht

theorem splitWs_ne_nil {s : List Char} {t : List Char}
    (h : t ∈ splitWs s) : t ≠ [] :=
  splitWsAux_ne_nil s [] t h

theorem joinSep_cons_ne_nil {sep w : List Char} {ws : List (List Char)}
    (hw : w ≠ []) : joinSep sep (w :: ws) ≠ [] := by
  cases ws with
  | nil => simpa [joinSep] using hw
  | cons y ys => simp [joinSep, List.append_eq_nil, hw]

/-- C7: `preprocess_polish_query` never returns an empty string on a
non-empty input; if lowercasing and stopword removal leaves no tokens,
the original unfiltered query is returned instead. -/
theorem c7_normalize_nonempty (q : List Char) (hq : q ≠ []) :
    preprocessPolishQuery q ≠ [] ∧
      ((filteredWords q).isEmpty = true → preprocessPolishQuery q = q) := by
  have hqe : q.isEmpty = false := by
    cases q with
    | nil => exact absurd rfl hq
    | cons c cs => rfl
  by_cases hf : (filteredWords q).isEmpty
  · have heq : preprocessPolishQuery q = q := by
      unfold preprocessPolishQuery
      rw [hqe]
      simp only [Bool.false_eq_true, if_false, hf, if_true]
    rw [heq]
    exact ⟨hq, fun _ => rfl⟩
  · obtain ⟨w, ws, hws⟩ : ∃ w ws, filteredWords q = w :: ws := by
      cases hfw : filteredWords q with
      | nil => rw [hfw] at hf; exact absurd rfl hf
      | cons w ws => exact ⟨w, ws, rfl⟩
    have hw : w ≠ [] := by
      have hmem : w ∈ splitWs (pyLower q) :=
        List.mem_of_mem_filter (by rw [hws]; simp : w ∈ filteredWords q)
      exact splitWs_ne_nil hmem
    have hp : joinSep (s2l " ") (w :: ws) ≠ [] := joinSep_cons_ne_nil hw
    have heq : preprocessPolishQuery q =
        (let processed := joinSep (s2l " ") (filteredWords q)
         let normalized := normalizePolishDiacritics processed
         joinSep (s2l " | ")
           (if normalized ≠ processed then [processed, normalized]
            else [processed])) := by
      unfold preprocessPolishQuery
      rw [hqe]
      simp only [Bool.false_eq_true, if_false]
      rw [if_neg hf]
    refine ⟨?_, fun h => absurd h hf⟩
    rw [heq, hws]
    simp only []
    by_cases hn : normalizePolishDiacritics (joinSep (s2l " ") (w :: ws)) ≠
        joinSep (s2l " ") (w :: ws)
    · rw [if_pos hn]
      exact joinSep_cons_ne_nil hp
    · rw [if_neg hn]
      exact joinSep_cons_ne_nil hp

/-- Witness for C7 at the concrete query `"ale nożem"` (whose first token
is a stopword). -/
theorem c7_normalize_nonempty_witness :
    preprocessPolishQuery (s2l "ale nożem") ≠ [] ∧
      ((filteredWords (s2l "ale nożem")).isEmpty = true →
        preprocessPolishQuery (s2l "ale nożem") = s2l "ale nożem") :=
  c7_normalize_nonempty (s2l "ale nożem") (by decide)

/-! ## C8: the combined search string -/
/-- C8 counterexample: for the query `"x | y"`, the combined string
contains the OR operator `" | "` although diacritic folding changed
nothing (the operator comes from the query text itself), refuting the
claimed "contains the OR operator iff folding changed the text". -/
theorem c8_counterexample :
    containsSub (preprocessPolishQuery (s2l "x | y")) (s2l " | ") = true ∧
      normalizePolishDiacritics (normalizedQuery (s2l "x | y")) =
        normalizedQuery (s2l "x | y") := by
  constructor
  · decide
  · decide

/-- C8 (amended): the combined string always contains the normalized form
as a substring, and it contains the OR token `" | "` iff either stopword
filtering left at least one token and diacritic folding changed the
normalized text (the code then joins the two variants with the OR token),
or the normalized text itself already contains the OR token. -/
theorem c8_combined_or_token (q : List Char) :
    containsSub (preprocessPolishQuery q) (normalizedQuery q) = true ∧
      (containsSub (preprocessPolishQuery q) (s2l " | ") = true ↔
        (((filteredWords q).isEmpty = false ∧
            normalizePolishDiacritics (normalizedQuery q) ≠
              normalizedQuery q) ∨
          containsSub (normalizedQuery q) (s2l " | ") = true)) := by
  by_cases hq : q.isEmpty
  · have hqn : q = [] := List.isEmpty_iff.mp hq
    subst hqn
    refine ⟨by decide, ?_⟩
    constructor
    · intro h
      exact absurd h (by decide)
    · rintro (⟨h1, _⟩ | h2)
      · exact absurd h1 (by decide)
      · exact absurd h2 (by decide)
  · have hqe : q.isEmpty = false := Bool.eq_false_iff.mpr hq
    by_cases hf : (filteredWords q).isEmpty
    · have hpre : preprocessPolishQuery q = q := by
        unfold preprocessPolishQuery
        rw [hqe]
        simp only [Bool.false_eq_true, if_false, hf, if_true]
      have hnq : normalizedQuery q = q := by
        unfold normalizedQuery
        rw [hqe]
        simp only [Bool.false_eq_true, if_false, hf, if_true]
      rw [hpre, hnq]
      refine ⟨containsSub_self q, ?_⟩
      constructor
      · intro h
        exact Or.inr h
      · rintro (⟨h1, _⟩ | h2)
        · rw [hf] at h1
          exact absurd h1 (by decide)
        · exact h2
    · have hfe : (filteredWords q).isEmpty = false := by
        cases hb : (filteredWords q).isEmpty
        · rfl
        · exact absurd hb hf
      have hnq : normalizedQuery q =
          joinSep (s2l " ") (filteredWords q) := by
        unfold normalizedQuery
        rw [hqe]
        simp only [Bool.false_eq_true, if_false]
        rw [if_neg hf]
      have hpre : preprocessPolishQuery q =
          (let processed := joinSep (s2l " ") (filteredWords q)
           let normalized := normalizePolishDiacritics processed
           joinSep (s2l " | ")
             (if normalized ≠ processed then [processed, normalized]
              else [processed])) := by
        unfold preprocessPolishQuery
        rw [hqe]
        simp only [Bool.false_eq_true, if_false]
        rw [if_neg hf]
      rw [hpre, hnq]
      simp only []
      by_cases hn : normalizePolishDiacritics
          (joinSep (s2l " ") (filteredWords q)) ≠
          joinSep (s2l " ") (filteredWords q)
      · rw [if_pos hn]
        have hshape : joinSep (s2l " | ")
            [joinSep (s2l " ") (filteredWords q),
             normalizePolishDiacritics (joinSep (s2l " ") (filteredWords q))] =
            joinSep (s2l " ") (filteredWords q) ++ s2l " | " ++
              normalizePolishDiacritics
                (joinSep (s2l " ") (filteredWords q)) := rfl
        rw [hshape]
        constructor
        · exact (containsSub_iff _ _).mpr
            ⟨[], s2l " | " ++ normalizePolishDiacritics
              (joinSep (s2l " ") (filteredWords q)),
             by simp [List.append_assoc]⟩
        · constructor
          · intro _
            exact Or.inl ⟨hfe, hn⟩
          · intro _
            exact containsSub_of_parts _ _ _
      · rw [if_neg hn]
        push_neg at hn
        have hshape : joinSep (s2l " | ")
            [joinSep (s2l " ") (filteredWords q)] =
            joinSep (s2l " ") (filteredWords q) := rfl
        rw [hshape]
        refine ⟨containsSub_self _, ?_⟩
        constructor
        · intro h
          exact Or.inr h
        · rintro (⟨_, h2⟩ | h2)
          · exact absurd hn h2
          · exact h2

/-! ## C1: the projected field list -/
theorem mem_ite_singleton {af : List (List Char)} {x f : List Char}
    {b : Bool} (hb : b = true → x ∈ af)
    (h : f ∈ if b = true then [x] else []) : f ∈ af := by
  by_cases hc : b = true
  · rw [if_pos hc] at h
    simp only [List.mem_singleton] at h
    subst h
    exact hb hc
  · rw [if_neg hc] at h
    simp at h

theorem mem_optionalFields {af : List (List Char)} {ci : Bool}
    {f : List Char} (h : f ∈ optionalFields af ci) : f ∈ af := by
  unfold optionalFields at h
  rcases List.mem_append.mp h with habc | hd
  · rcases List.mem_append.mp habc with hab | hc3
    · rcases List.mem_append.mp hab with ha | hb
      · exact mem_ite_singleton (fun hb => List.mem_of_elem_eq_true hb) ha
      · exact mem_ite_singleton (fun hb => List.mem_of_elem_eq_true hb) hb
    · exact mem_ite_singleton (fun hb => List.mem_of_elem_eq_true hb) hc3
  · by_cases hci : ci = true
    · rw [if_pos hci] at hd
      rcases List.mem_append.mp hd with h1 | h1
      · rw [Option.mem_toList, Option.mem_def] at h1
        have hp := List.find?_some h1
        exact List.mem_of_elem_eq_true hp
      · rw [Option.mem_toList, Option.mem_def] at h1
        have hp := List.find?_some h1
        exact List.mem_of_elem_eq_true hp
    · rw [if_neg hci] at hd
      simp at hd

theorem projectedNames_spec (af : List (List Char)) (ci : Bool) :
    ∀ f ∈ projectedNames af ci,
      validateFieldName f = true ∧ (f ≠ s2l "id" → f ∈ af) := by
  intro f hf
  unfold projectedNames at hf
  rw [List.mem_filter] at hf
  obtain ⟨hmem, hval⟩ := hf
  refine ⟨hval, fun hne => ?_⟩
  rcases List.mem_append.mp hmem with hb | ho
  · unfold baseFields at hb
    rcases List.mem_cons.mp hb with h1 | h2
    · exact absurd h1 hne
    · have hw : f = s2l "WEIGHT() as weight" := by simpa using h2
      rw [hw] at hval
      exact absurd hval (by decide)
  · exact mem_optionalFields ho

theorem projectedNames_starts_id (af : List (List Char)) (ci : Bool) :
    ∃ rest, projectedNames af ci = s2l "id" :: rest := by
  unfold projectedNames baseFields
  rw [List.cons_append, List.filter_cons]
  simp only [show validateFieldName (s2l "id") = true from by decide]
  exact ⟨_, rfl⟩

/-- C1 counterexample: with an empty `available_fields` set the projection
built by `_sphinx_search` still contains the base field `"id"`, which is
not a member of `availableFields`, so the claim "projects only field
names that are both present in schema.availableFields and members of the
fixed allow-list" fails. -/
theorem c1_counterexample :
    s2l "id" ∈ projectedNames [] false ∧
      s2l "id" ∉ ([] : List (List Char)) := by
  constructor
  · decide
  · decide

/-- C1 (amended): every field name projected by `_sphinx_search` is a
member of the fixed allow-list, and every projected field other than the
always-projected base field `"id"` is also present in
`schema.availableFields`; a field failing either check is dropped, never
substituted (the hard-coded fallback list is dead code because `"id"`
always survives validation, so the emitted projection is exactly the
escaped list of validated names). -/
theorem c1_projection_allowlist (af : List (List Char)) (ci : Bool) :
    (∀ f ∈ projectedNames af ci,
      validateFieldName f = true ∧ (f ≠ s2l "id" → f ∈ af)) ∧
      safeFields af ci = (projectedNames af ci).map escapeIdentifier := by
  refine ⟨projectedNames_spec af ci, ?_⟩
  unfold safeFields
  obtain ⟨rest, hrest⟩ := projectedNames_starts_id af ci
  rw [hrest]
  rfl

/-- Witness for C1 (amended) at a concrete schema: with
`availableFields = ["topic_id"]`, the projected field `"topic_id"` is
validated and is in the schema, and the emitted projection is the escaped
validated list. -/
theorem c1_projection_allowlist_witness :
    (validateFieldName (s2l "topic_id") = true ∧
      (s2l "topic_id" ≠ s2l "id" → s2l "topic_id" ∈ [s2l "topic_id"])) ∧
      safeFields [s2l "topic_id"] false =
        (projectedNames [s2l "topic_id"] false).map escapeIdentifier :=
  ⟨(c1_projection_allowlist [s2l "topic_id"] false).1 (s2l "topic_id")
      (by decide),
    (c1_projection_allowlist [s2l "topic_id"] false).2⟩

theorem escQChar_eq_self {x : Char} (h1 : x ≠ squoteChar)
    (h2 : x ≠ dquoteChar) : escQChar x = [x] := by
  simp [escQChar, h1, h2]

theorem escapeQueryQuotes_eq_flatMap (q : List Char) :
    escapeQueryQuotes q = q.flatMap escQChar := by
  unfold escapeQueryQuotes replaceChar
  rw [List.flatMap_assoc]
  refine List.flatMap_congr ?_
  intro x _
  by_cases h1 : x = squoteChar
  · subst h1
    decide
  · by_cases h2 : x = dquoteChar
    · subst h2
      decide
    · simp [escQChar, h1, h2]

theorem containsSub_lower_escape {q p : List Char}
    (hp : ∀ c ∈ p, c ≠ squoteChar ∧ c ≠ dquoteChar)
    (h : containsSub (pyLower q) p = true) :
    containsSub (pyLower (escapeQueryQuotes q)) p = true := by
  obtain ⟨a, b, hab⟩ := (containsSub_iff _ _).mp h
  set m := (q.drop a.length).take p.length with hm_def
  have hm : pyLower m = p := by
    have h1 : (pyLower q).drop a.length = p ++ b := by
      rw [hab, List.append_assoc, List.drop_left]
    have h2 : ((pyLower q).drop a.length).take p.length = p := by
      rw [h1, List.take_left]
    rw [← h2, hm_def]
    unfold pyLower
    rw [List.map_take, List.map_drop]
  have inner : m ++ q.drop (a.length + p.length) = q.drop a.length := by
    have hd : q.drop (a.length + p.length) =
        (q.drop a.length).drop p.length := by
      rw [List.drop_drop]
    rw [hd, hm_def, List.take_append_drop]
  have hq : q = q.take a.length ++ m ++ q.drop (a.length + p.length) := by
    rw [List.append_assoc, inner, List.take_append_drop]
  have hmq : ∀ x ∈ m, escQChar x = [x] := by
    intro x hx
    have hxl : pyLowerChar x ∈ p := by
      rw [← hm]
      exact List.mem_map_of_mem _ hx
    refine escQChar_eq_self ?_ ?_
    · intro hxe
      rw [hxe, show pyLowerChar squoteChar = squoteChar from by decide]
        at hxl
      exact (hp _ hxl).1 rfl
    · intro hxe
      rw [hxe, show pyLowerChar dquoteChar = dquoteChar from by decide]
        at hxl
      exact (hp _ hxl).2 rfl
  rw [escapeQueryQuotes_eq_flatMap]
  conv_lhs => rw [hq]
  rw [List.flatMap_append, List.flatMap_append, flatMap_id_of hmq]
  unfold pyLower
  rw [List.map_append, List.map_append]
  have hmp : List.map pyLowerChar m = p := hm
  rw [hmp]
  exact containsSub_of_parts _ _ _

theorem pyStrip_nil_iff (s : List Char) :
    pyStrip s = [] ↔ ∀ c ∈ s, pyIsSpace c = true := by
  unfold pyStrip
  rw [List.reverse_eq_nil_iff, List.dropWhile_eq_nil_iff]
  constructor
  · intro h c hc
    rcases List.mem_append.mp
        ((List.takeWhile_append_dropWhile (p := pyIsSpace) (l := s)) ▸ hc)
      with h1 | h2
    · exact List.mem_takeWhile_imp h1
    · exact h c (List.mem_reverse.mpr h2)
  · intro h c hc
    exact h c ((List.dropWhile_sublist _).subset (List.mem_reverse.mp hc))

theorem validateSearchQuery_eq_false_of {s : List Char}
    (h : (pyStrip s).isEmpty = true ∨
      dangerousPatterns.any (fun p => containsSub (pyLower s) p) = true ∨
      1000 < s.length) : validateSearchQuery s = false := by
  unfold validateSearchQuery
  split_ifs with h1 h2 h3
  · rfl
  · rfl
  · rfl
  · exfalso
    rcases h with h | h | h
    · exact h1 (by simp [h])
    · exact h2 h
    · exact h3 h

theorem dangerousPatterns_no_quotes :
    ∀ p ∈ dangerousPatterns, ∀ c ∈ p,
      c ≠ squoteChar ∧ c ≠ dquoteChar := by
  decide

theorem escQChar_len : ∀ x : Char, 1 ≤ (escQChar x).length := by
  intro x
  unfold escQChar
  split_ifs <;> simp

/-- C2: for every query that (case-insensitively) contains a dangerous
substring, or is empty after trimming, or exceeds 1000 characters,
statement building in `_sphinx_search` fails with the validation
`ValueError` before any statement is produced for execution against the
wire protocol. -/
theorem c2_dangerous_query_rejected (af : List (List Char)) (ci : Bool)
    (indexName q : List Char) (limit : Nat)
    (h : dangerousPatterns.any (fun p => containsSub (pyLower q) p) = true ∨
      (pyStrip q).isEmpty = true ∨ 1000 < q.length) :
    sphinxSearchStatement af ci indexName q limit =
      .error (s2l "Invalid search query format") := by
  have hval : validateSearchQuery (escapeQueryQuotes q) = false := by
    rcases h with h | h | h
    · refine validateSearchQuery_eq_false_of (Or.inr (Or.inl ?_))
      rw [List.any_eq_true] at h ⊢
      obtain ⟨p, hpmem, hcp⟩ := h
      exact ⟨p, hpmem,
        containsSub_lower_escape (dangerousPatterns_no_quotes p hpmem) hcp⟩
    · refine validateSearchQuery_eq_false_of (Or.inl ?_)
      have hsp : ∀ c ∈ q, pyIsSpace c = true :=
        (pyStrip_nil_iff q).mp (List.isEmpty_iff.mp h)
      have hesc : escapeQueryQuotes q = q := by
        rw [escapeQueryQuotes_eq_flatMap]
        refine flatMap_id_of ?_
        intro x hx
        refine escQChar_eq_self ?_ ?_
        · intro hxe
          rw [hxe] at hx
          exact absurd (hsp _ hx) (by decide)
        · intro hxe
          rw [hxe] at hx
          exact absurd (hsp _ hx) (by decide)
      rw [hesc]
      exact h
    · refine validateSearchQuery_eq_false_of (Or.inr (Or.inr ?_))
      have hle : q.length ≤ (escapeQueryQuotes q).length := by
        rw [escapeQueryQuotes_eq_flatMap]
        exact length_le_flatMap escQChar_len
      omega
  unfold sphinxSearchStatement
  simp [hval]

/-- Witness for C2 at the concrete query `"drop table users"`. -/
theorem c2_dangerous_query_rejected_witness :
    sphinxSearchStatement [] false (s2l "sphinx_main")
        (s2l "drop table users") 10 =
      .error (s2l "Invalid search query format") :=
  c2_dangerous_query_rejected [] false (s2l "sphinx_main")
    (s2l "drop table users") 10 (Or.inl (by decide))

/-- C5: schema detection never raises (every branch of the model is
total, mirroring the blanket exception handling of
`_detect_index_fields`) and always leaves a schema; with no connection,
or when both probe tiers fail, the schema is exactly the fixed minimal
field set with content marked unavailable. -/
theorem c5_probe_degrades_to_minimal (indexName : List Char) :
    detectIndexFields indexName .noConnection =
        ⟨minimalFields, false⟩ ∧
      ∀ t1 t2, tier1Failed t1 → tier2Failed t2 →
        detectIndexFields indexName (.connected t1 t2) =
          ⟨minimalFields, false⟩ := by
  refine ⟨rfl, ?_⟩
  intro t1 t2 h1 h2
  have ht2 : tier2Fields t2 = minimalFields := by
    cases t2 with
    | raised => rfl
    | noRow => rfl
    | row r => exact absurd h2 (by simp [tier2Failed])
  have hmin : contentDetectAliases.any
      (fun f => minimalFields.contains f) = false := by decide
  cases t1 with
  | raised =>
    unfold detectIndexFields
    by_cases hv : validateIndexName indexName
    · simp only [hv, Bool.not_true, Bool.false_eq_true, if_false, ht2, hmin]
    · simp only [Bool.eq_false_iff.mpr hv, Bool.not_false, if_true]
  | rows rs =>
    unfold detectIndexFields
    unfold tier1Failed at h1
    by_cases hv : validateIndexName indexName
    · simp only [hv, Bool.not_true, Bool.false_eq_true, if_false, h1, ht2,
        hmin]
    · simp only [Bool.eq_false_iff.mpr hv, Bool.not_false, if_true]

/-- Witness for C5: both tiers raising, with the default index name. -/
theorem c5_probe_degrades_to_minimal_witness :
    detectIndexFields (s2l "smf_polish_posts") .noConnection =
        ⟨minimalFields, false⟩ ∧
      detectIndexFields (s2l "smf_polish_posts")
          (.connected .raised .raised) = ⟨minimalFields, false⟩ :=
  ⟨(c5_probe_degrades_to_minimal (s2l "smf_polish_posts")).1,
    (c5_probe_degrades_to_minimal (s2l "smf_polish_posts")).2 .raised .raised
      trivial trivial⟩

/-! ## C6: result flags and content population -/
theorem contentSelAliases_ne_id : ∀ f ∈ contentSelAliases,
    f ≠ s2l "id" := by decide

theorem subjectSelAliases_ne_id : ∀ f ∈ subjectSelAliases,
    f ≠ s2l "id" := by decide

theorem detect_content_consistent (idx : List Char) (outc : ProbeOutcome) :
    (detectIndexFields idx outc).contentInIndex =
      contentDetectAliases.any
        (fun f => (detectIndexFields idx outc).availableFields.contains f) := by
  cases outc with
  | noConnection => rfl
  | connected t1 t2 =>
    unfold detectIndexFields
    by_cases hv : validateIndexName idx
    · simp only [hv, Bool.not_true, Bool.false_eq_true, if_false]
    · simp only [Bool.eq_false_iff.mpr hv, Bool.not_false, if_true]
      decide

theorem mem_projected_of_has {row : Row} {af : List (List Char)} {ci : Bool}
    (hall : row.all (fun p => (projectedNames af ci).contains p.1) = true)
    {k : List Char} (hk : dictHas row k = true) :
    k ∈ projectedNames af ci := by
  unfold dictHas dictGet at hk
  cases hfind : row.find? (fun p => p.1 = k) with
  | none => rw [hfind] at hk; simp at hk
  | some pr =>
    have hmem := List.mem_of_find?_eq_some hfind
    have hpk := List.find?_some hfind
    have hk2 : pr.1 = k := by simpa using hpk
    rw [List.all_eq_true] at hall
    have hc := hall pr hmem
    rw [← hk2]
    exact List.mem_of_elem_eq_true (by simpa using hc)

/-- C6: every constructed `SearchResult` satisfies
`needs_content_fetch = not content_in_index`; its `content`/`subject`
are populated only when `content_in_index` is true and (when the row's
columns come from the built projection) the corresponding alias is in
`availableFields`; and with the minimal field set the detected flag is
false, so every result then has `content_in_index = false`,
`needs_content_fetch = true` and no content or subject value. -/
theorem c6_result_content_flags (ci : Bool) (row : Row)
    (af : List (List Char))
    (hkeys : row.all (fun p => (projectedNames af ci).contains p.1) = true) :
    (rowToResult ci row).needsContentFetch =
        !(rowToResult ci row).contentInIndex
    ∧ ((rowToResult ci row).content.isSome = true →
        ci = true ∧ ∃ f ∈ contentSelAliases,
          dictHas row f = true ∧ f ∈ af)
    ∧ ((rowToResult ci row).subject.isSome = true →
        ci = true ∧ ∃ f ∈ subjectSelAliases,
          dictHas row f = true ∧ f ∈ af)
    ∧ (∀ idx outc,
        (detectIndexFields idx outc).availableFields = minimalFields →
          (detectIndexFields idx outc).contentInIndex = false)
    ∧ (ci = false → (rowToResult ci row).contentInIndex = false ∧
        (rowToResult ci row).needsContentFetch = true ∧
        (rowToResult ci row).content = none ∧
        (rowToResult ci row).subject = none) := by
  refine ⟨rfl, ?_, ?_, ?_, ?_⟩
  · intro h
    cases hc : ci with
    | false =>
      rw [hc] at h
      simp [rowToResult] at h
    | true =>
      subst hc
      simp only [rowToResult, if_true] at h
      cases hfind : contentSelAliases.find? (fun f => dictHas row f) with
      | none => rw [hfind] at h; simp at h
      | some f =>
        rw [hfind] at h
        simp only [Option.some_bind] at h
        have hmem := List.mem_of_find?_eq_some hfind
        have hhas : dictHas row f = true := List.find?_some hfind
        refine ⟨rfl, f, hmem, hhas, ?_⟩
        have hproj := mem_projected_of_has hkeys hhas
        exact (projectedNames_spec af true f hproj).2
          (contentSelAliases_ne_id f hmem)
  · intro h
    cases hc : ci with
    | false =>
      rw [hc] at h
      simp [rowToResult] at h
    | true =>
      subst hc
      simp only [rowToResult, if_true] at h
      cases hfind : subjectSelAliases.find? (fun f => dictHas row f) with
      | none => rw [hfind] at h; simp at h
      | some f =>
        rw [hfind] at h
        simp only [Option.some_bind] at h
        have hmem := List.mem_of_find?_eq_some hfind
        have hhas : dictHas row f = true := List.find?_some hfind
        refine ⟨rfl, f, hmem, hhas, ?_⟩
        have hproj := mem_projected_of_has hkeys hhas
        exact (projectedNames_spec af true f hproj).2
          (subjectSelAliases_ne_id f hmem)
  · intro idx outc h
    rw [detect_content_consistent, h]
    decide
  · intro hc
    subst hc
    exact ⟨rfl, rfl, rfl, rfl⟩

/-- Witness for C6 at a concrete row and schema: the row holds the
projected columns `id` and `content` for the schema
`availableFields = ["content"]` with content in the index. -/
theorem c6_result_content_flags_witness :
    ((rowToResult true [(s2l "id", JVal.jnum 1),
        (s2l "content", JVal.jstr (s2l "x"))]).needsContentFetch =
      !(rowToResult true [(s2l "id", JVal.jnum 1),
        (s2l "content", JVal.jstr (s2l "x"))]).contentInIndex)
    ∧ (true = true ∧ ∃ f ∈ contentSelAliases,
        dictHas [(s2l "id", JVal.jnum 1),
          (s2l "content", JVal.jstr (s2l "x"))] f = true ∧
          f ∈ [s2l "content"])
    ∧ ((rowToResult false []).content = none) := by
  have h := c6_result_content_flags true
    [(s2l "id", JVal.jnum 1), (s2l "content", JVal.jstr (s2l "x"))]
    [s2l "content"] (by decide)
  have h0 := c6_result_content_flags false [] [] (by decide)
  exact ⟨h.1, h.2.1 (by decide), (h0.2.2.2.2 rfl).2.2.1⟩

/-! ## Key-value store lemmas -/
theorem kvGet_kvSet_self (kv : List (List Char × RVal)) (k : List Char)
    (v : RVal) : kvGet (kvSet kv k v) k = some v := by
  unfold kvGet kvSet
  rw [List.find?_cons_of_pos _ (by simp)]
  rfl

theorem find?_filter_ne (kv : List (List Char × RVal)) (k k' : List Char)
    (h : k' ≠ k) :
    (kv.filter (fun p => p.1 ≠ k)).find? (fun p => p.1 = k') =
      kv.find? (fun p => p.1 = k') := by
  induction kv with
  | nil => rfl
  | cons a l ih =>
    by_cases ha : a.1 = k
    · rw [List.filter_cons_of_neg (by simp [ha]),
        List.find?_cons_of_neg _
          (by simp only [ha, decide_eq_true_eq]; exact Ne.symm h), ih]
    · by_cases ha' : a.1 = k'
      · rw [List.filter_cons_of_pos (by simp [ha]),
          List.find?_cons_of_pos _ (by simp [ha']),
          List.find?_cons_of_pos _ (by simp [ha'])]
      · rw [List.filter_cons_of_pos (by simp [ha]),
          List.find?_cons_of_neg _ (by simp [ha']),
          List.find?_cons_of_neg _ (by simp [ha']), ih]

theorem kvGet_kvSet_ne (kv : List (List Char × RVal)) {k k' : List Char}
    (v : RVal) (h : k' ≠ k) : kvGet (kvSet kv k v) k' = kvGet kv k' := by
  unfold kvGet kvSet
  rw [List.find?_cons_of_neg _
      (by simp only [decide_eq_true_eq]; exact Ne.symm h),
    find?_filter_ne kv k k' h]

theorem jsonEscChar_plain {c : Char} (h : jsonPlainChar c = true) :
    jsonEscCharAscii c = [c] := by
  unfold jsonPlainChar at h
  simp only [Bool.and_eq_true, Bool.not_eq_true', decide_eq_true_eq,
    decide_eq_false_iff_not] at h
  obtain ⟨⟨⟨hdq, hbs⟩, hge⟩, hlt⟩ := h
  unfold jsonEscCharAscii
  rw [if_neg hdq, if_neg hbs, if_neg (by omega : ¬c.toNat = 8),
    if_neg (by omega : ¬c.toNat = 9), if_neg (by omega : ¬c.toNat = 10),
    if_neg (by omega : ¬c.toNat = 12), if_neg (by omega : ¬c.toNat = 13),
    if_neg (by omega : ¬c.toNat < 32), if_pos hlt]

theorem jsonStr_inj_plain {v1 v2 : List Char}
    (h1 : ∀ c ∈ v1, jsonPlainChar c = true)
    (h2 : ∀ c ∈ v2, jsonPlainChar c = true)
    (h : jsonStr v1 = jsonStr v2) : v1 = v2 := by
  unfold jsonStr at h
  rw [flatMap_id_of (fun c hc => jsonEscChar_plain (h1 c hc)),
    flatMap_id_of (fun c hc => jsonEscChar_plain (h2 c hc))] at h
  exact List.append_cancel_left (List.append_cancel_right h)

theorem dumps_searchKeyData (q v : List Char) (filters : JVal) :
    dumpsJson (searchKeyData q filters v) =
      [lbraceChar] ++
        (jsonStr (s2l "filters") ++ s2l ": " ++ dumpsJson filters ++
          s2l ", " ++
          (jsonStr (s2l "query") ++ s2l ": " ++ jsonStr q ++ s2l ", " ++
            (jsonStr (s2l "version") ++ s2l ": " ++ jsonStr v))) ++
        [rbraceChar] := by
  rfl

theorem dumps_searchKeyData_inj_version {q v1 v2 : List Char}
    {filters : JVal}
    (h1 : ∀ c ∈ v1, jsonPlainChar c = true)
    (h2 : ∀ c ∈ v2, jsonPlainChar c = true)
    (h : dumpsJson (searchKeyData q filters v1) =
      dumpsJson (searchKeyData q filters v2)) : v1 = v2 := by
  rw [dumps_searchKeyData, dumps_searchKeyData] at h
  have ha := List.append_cancel_left (List.append_cancel_right h)
  have hb := List.append_cancel_left ha
  have hc := List.append_cancel_left hb
  exact jsonStr_inj_plain h1 h2 (List.append_cancel_left hc)

theorem searchCacheKey_eq_iff (sha md5 : List Char → List Char)
    (nsp : List Char) (env env2 : EnvSettings) (q : List Char)
    (filters : JVal) (hinj : Function.Injective sha)
    (h1 : ∀ c ∈ getSearchVersion md5 env, jsonPlainChar c = true)
    (h2 : ∀ c ∈ getSearchVersion md5 env2, jsonPlainChar c = true)
    (h : searchCacheKey sha md5 nsp env q filters =
      searchCacheKey sha md5 nsp env2 q filters) :
    getSearchVersion md5 env = getSearchVersion md5 env2 := by
  unfold searchCacheKey getCacheKey at h
  have hsha := List.append_cancel_left h
  exact dumps_searchKeyData_inj_version h1 h2 (hinj hsha)

/-- C3: the search-cache key embeds the schema version hash, so two
otherwise-identical lookups whose `schemaVersion` differs use distinct
keys, and a lookup after a version-changing configuration change misses
even though the pair was just cached.  The external hash primitives are
parameters; `sha` is assumed collision-free on the payloads involved and
the version digests consist of plain (hex-like) characters, as
`hexdigest` guarantees. -/
theorem c3_version_change_misses
    (sha md5 : List Char → List Char) (st : CacheState)
    (q : List Char) (filters : JVal) (results : List JVal)
    (ttl : Option Nat) (now : Int) (env2 : EnvSettings)
    (hav : isAvailable st = true)
    (hkv : st.kv = [])
    (hinj : Function.Injective sha)
    (h1 : ∀ c ∈ getSearchVersion md5 st.env, jsonPlainChar c = true)
    (h2 : ∀ c ∈ getSearchVersion md5 env2, jsonPlainChar c = true)
    (hne : getSearchVersion md5 st.env ≠ getSearchVersion md5 env2) :
    searchCacheKey sha md5 st.keyNamespace st.env q filters ≠
        searchCacheKey sha md5 st.keyNamespace env2 q filters
    ∧ (getCachedSearchResults sha md5
        (CacheState.mk
          (cacheSearchResults sha md5 st q filters results ttl now).2.kv
          st.cacheEnabled st.isConnected st.keyNamespace env2
          st.defaultTtl)
        q filters).1 = none := by
  have hkeyne : searchCacheKey sha md5 st.keyNamespace st.env q filters ≠
      searchCacheKey sha md5 st.keyNamespace env2 q filters :=
    fun h => hne (searchCacheKey_eq_iff sha md5 st.keyNamespace st.env env2
      q filters hinj h1 h2 h)
  refine ⟨hkeyne, ?_⟩
  have hkv1 : (cacheSearchResults sha md5 st q filters results ttl now).2.kv
      = kvSet st.kv
          (searchCacheKey sha md5 st.keyNamespace st.env q filters)
          (.jsonVal (searchCacheEntry q filters results now)) := by
    unfold cacheSearchResults
    rw [hav]
    rfl
  unfold getCachedSearchResults
  have hav2 : isAvailable (CacheState.mk
      (cacheSearchResults sha md5 st q filters results ttl now).2.kv
      st.cacheEnabled st.isConnected st.keyNamespace env2
      st.defaultTtl) = true := hav
  rw [hav2]
  simp only [Bool.not_true, Bool.false_eq_true, if_false]
  have hget : kvGet
      (CacheState.mk
        (cacheSearchResults sha md5 st q filters results ttl now).2.kv
        st.cacheEnabled st.isConnected st.keyNamespace env2
        st.defaultTtl).kv
      (searchCacheKey sha md5 st.keyNamespace env2 q filters) = none := by
    show kvGet
      (cacheSearchResults sha md5 st q filters results ttl now).2.kv
      (searchCacheKey sha md5 st.keyNamespace env2 q filters) = none
    rw [hkv1, kvGet_kvSet_ne _ _ (fun h => hkeyne h.symm), hkv]
    rfl
  rw [hget]

/-- Witness for C3 at a concrete state and environment change. -/
theorem c3_version_change_misses_witness :
    searchCacheKey shaW md5W stW.keyNamespace stW.env (s2l "q")
        JVal.jnull ≠
      searchCacheKey shaW md5W stW.keyNamespace envW2 (s2l "q") JVal.jnull
    ∧ (getCachedSearchResults shaW md5W
        (CacheState.mk
          (cacheSearchResults shaW md5W stW (s2l "q") JVal.jnull []
            none 0).2.kv
          stW.cacheEnabled stW.isConnected stW.keyNamespace envW2
          stW.defaultTtl)
        (s2l "q") JVal.jnull).1 = none :=
  c3_version_change_misses shaW md5W stW (s2l "q") JVal.jnull [] none 0
    envW2 (by decide) rfl (fun _ _ h => h) (by decide) (by decide)
    (by decide)

theorem hitsCount_eq_countAt (st : CacheState) :
    hitsCount st = countAt st.kv (hitsKey st) := rfl

theorem countAt_kvSet_intVal (kv : List (List Char × RVal)) (k : List Char)
    (n : Nat) : countAt (kvSet kv k (.intVal n)) k = n := by
  unfold countAt
  rw [kvGet_kvSet_self]

theorem searchKey_ne_hits (sha md5 : List Char → List Char)
    (nsp : List Char) (env : EnvSettings) (q : List Char) (filters : JVal) :
    nsp ++ s2l "stats:cache_hits" ≠
      searchCacheKey sha md5 nsp env q filters := by
  intro h
  unfold searchCacheKey getCacheKey at h
  rw [List.append_assoc] at h
  have h2 := List.append_cancel_left h
  have e3 : some 't' = some 'e' := congrArg (fun l => l[1]?) h2
  exact absurd e3 (by decide)

theorem hitsCount_recordCacheHit (st : CacheState)
    (hav : isAvailable st = true)
    (hclean : hitsKeyIsCounter st = true) :
    hitsCount (recordCacheHit st) = hitsCount st + 1 := by
  have hrec : recordCacheHit st = CacheState.mk
      (incrKv st.kv (hitsKey st)) st.cacheEnabled st.isConnected
      st.keyNamespace st.env st.defaultTtl := by
    unfold recordCacheHit
    rw [hav]
    rfl
  have hl : hitsCount (recordCacheHit st) =
      countAt (incrKv st.kv (hitsKey st)) (hitsKey st) := by
    rw [hrec]
    rfl
  unfold hitsKeyIsCounter at hclean
  cases hv : kvGet st.kv (hitsKey st) with
  | none =>
    have hincr : incrKv st.kv (hitsKey st) =
        kvSet st.kv (hitsKey st) (.intVal 1) := by
      unfold incrKv
      rw [hv]
    have hr : hitsCount st = 0 := by
      rw [hitsCount_eq_countAt]
      unfold countAt
      rw [hv]
    rw [hl, hincr, countAt_kvSet_intVal, hr]
  | some v =>
    cases v with
    | jsonVal d =>
      rw [hv] at hclean
      exact absurd hclean (by simp)
    | intVal n =>
      have hincr : incrKv st.kv (hitsKey st) =
          kvSet st.kv (hitsKey st) (.intVal (n + 1)) := by
        unfold incrKv
        rw [hv]
      have hr : hitsCount st = n := by
        rw [hitsCount_eq_countAt]
        unfold countAt
        rw [hv]
      rw [hl, hincr, countAt_kvSet_intVal, hr]

theorem lookup_hit_general (sha md5 : List Char → List Char)
    (st' : CacheState) (q : List Char) (filters : JVal) (d : JVal)
    (hav' : isAvailable st' = true)
    (hg : kvGet st'.kv
      (searchCacheKey sha md5 st'.keyNamespace st'.env q filters) =
      some (.jsonVal d)) :
    getCachedSearchResults sha md5 st' q filters =
      (some d, recordCacheHit st') := by
  unfold getCachedSearchResults
  rw [hav']
  simp only [Bool.not_true, Bool.false_eq_true, if_false]
  rw [hg]

theorem hitsKeyIsCounter_kvSet (st : CacheState) (k : List Char) (v : RVal)
    (hne : hitsKey st ≠ k)
    (hclean : hitsKeyIsCounter st = true) :
    hitsKeyIsCounter (CacheState.mk (kvSet st.kv k v) st.cacheEnabled
      st.isConnected st.keyNamespace st.env st.defaultTtl) = true := by
  unfold hitsKeyIsCounter at hclean ⊢
  rw [show hitsKey (CacheState.mk (kvSet st.kv k v) st.cacheEnabled
        st.isConnected st.keyNamespace st.env st.defaultTtl) =
      hitsKey st from rfl,
    show (CacheState.mk (kvSet st.kv k v) st.cacheEnabled st.isConnected
        st.keyNamespace st.env st.defaultTtl).kv = kvSet st.kv k v from rfl,
    kvGet_kvSet_ne _ _ hne]
  exact hclean

/-- C4: when the cache backend is available (and the hit counter key is
not corrupted by foreign data), storing a result set and immediately
looking up the same query/filters pair succeeds, returns the stored entry
whose `results` field is exactly the stored list, and increments the hits
counter by exactly one. -/
theorem c4_store_lookup_roundtrip
    (sha md5 : List Char → List Char) (st : CacheState)
    (q : List Char) (filters : JVal) (results : List JVal)
    (ttl : Option Nat) (now : Int)
    (hav : isAvailable st = true)
    (hclean : hitsKeyIsCounter st = true) :
    (cacheSearchResults sha md5 st q filters results ttl now).1 = true
    ∧ (getCachedSearchResults sha md5
        (cacheSearchResults sha md5 st q filters results ttl now).2
        q filters).1 = some (searchCacheEntry q filters results now)
    ∧ objGet (searchCacheEntry q filters results now) (s2l "results") =
        some (JVal.jarr results)
    ∧ hitsCount (getCachedSearchResults sha md5
        (cacheSearchResults sha md5 st q filters results ttl now).2
        q filters).2 =
      hitsCount
        (cacheSearchResults sha md5 st q filters results ttl now).2 + 1 := by
  have hpair : cacheSearchResults sha md5 st q filters results ttl now =
      (true, CacheState.mk
        (kvSet st.kv
          (searchCacheKey sha md5 st.keyNamespace st.env q filters)
          (.jsonVal (searchCacheEntry q filters results now)))
        st.cacheEnabled st.isConnected st.keyNamespace st.env
        st.defaultTtl) := by
    unfold cacheSearchResults
    rw [hav]
    rfl
  have hav1 : isAvailable
      (cacheSearchResults sha md5 st q filters results ttl now).2 = true := by
    rw [hpair]
    exact hav
  have hg1 : kvGet
      (cacheSearchResults sha md5 st q filters results ttl now).2.kv
      (searchCacheKey sha md5
        (cacheSearchResults sha md5 st q filters results ttl now).2.keyNamespace
        (cacheSearchResults sha md5 st q filters results ttl now).2.env
        q filters) =
      some (.jsonVal (searchCacheEntry q filters results now)) := by
    rw [hpair]
    exact kvGet_kvSet_self _ _ _
  have hlook := lookup_hit_general sha md5
    (cacheSearchResults sha md5 st q filters results ttl now).2
    q filters (searchCacheEntry q filters results now) hav1 hg1
  have hne : hitsKey st ≠
      searchCacheKey sha md5 st.keyNamespace st.env q filters :=
    searchKey_ne_hits sha md5 st.keyNamespace st.env q filters
  have hclean1 : hitsKeyIsCounter
      (cacheSearchResults sha md5 st q filters results ttl now).2 = true := by
    rw [hpair]
    exact hitsKeyIsCounter_kvSet st _ _ hne hclean
  refine ⟨?_, ?_, rfl, ?_⟩
  · rw [hpair]
  · rw [hlook]
  · rw [hlook]
    exact hitsCount_recordCacheHit _ hav1 hclean1

/-- Witness for C4 at a concrete state, query and result list. -/
theorem c4_store_lookup_roundtrip_witness :
    (cacheSearchResults shaW md5W stW (s2l "q") JVal.jnull
        [JVal.jnum 7] none 0).1 = true
    ∧ (getCachedSearchResults shaW md5W
        (cacheSearchResults shaW md5W stW (s2l "q") JVal.jnull
          [JVal.jnum 7] none 0).2
        (s2l "q") JVal.jnull).1 =
      some (searchCacheEntry (s2l "q") JVal.jnull [JVal.jnum 7] 0)
    ∧ objGet (searchCacheEntry (s2l "q") JVal.jnull [JVal.jnum 7] 0)
        (s2l "results") = some (JVal.jarr [JVal.jnum 7])
    ∧ hitsCount (getCachedSearchResults shaW md5W
        (cacheSearchResults shaW md5W stW (s2l "q") JVal.jnull
          [JVal.jnum 7] none 0).2
        (s2l "q") JVal.jnull).2 =
      hitsCount (cacheSearchResults shaW md5W stW (s2l "q") JVal.jnull
        [JVal.jnum 7] none 0).2 + 1 :=
  c4_store_lookup_roundtrip shaW md5W stW (s2l "q") JVal.jnull
    [JVal.jnum 7] none 0 (by decide) (by decide)
